import Mathlib

/-!
Verification of the filededup scanning agent (internal/agent/agent.go) and the
ingestion handler (pkg/record/record.go) against its natural-language
specification.

Files are modelled as a byte-content function `ℕ → ℕ` (byte value at each
offset) together with a length `size : ℕ`.  The 256-bit cryptographic digest
itself (crypto/sha256) is not modelled: every claim about digest equality or
inequality is settled at the level of the byte stream written into the digest
(`hashFileInput` / `hashLargeFileInput`), which determines the digest value.
-/

/-- Size of the head segment hashed by hashLargeFile: 1 MiB (agent.go line 328). -/
def headSize : ℕ := 1024 * 1024

/-- Size of the tail segment hashed by hashLargeFile: 1 MiB (agent.go line 329). -/
def tailSize : ℕ := 1024 * 1024

/-- Number of middle samples taken by hashLargeFile (agent.go line 373). -/
def numSamples : ℕ := 10

/-- The middle sampling budget computed by hashLargeFile (agent.go lines 333-338):
10 MiB for sizes above 100 MiB, size/10 for sizes above 10 MiB, otherwise 0. -/
def middleSize (size : ℕ) : ℕ :=
  if 100 * 1024 * 1024 < size then 10 * 1024 * 1024
  else if 10 * 1024 * 1024 < size then size / 10
  else 0

/-- The bytes obtained by seeking to `pos` and reading `len` bytes through the
64 KiB buffered ReadAtLeast loop of hashLargeFile: a contiguous run starting at
`pos`, truncated at end of file (short reads at EOF are tolerated and stop the
loop). -/
def readSegment (content : ℕ → ℕ) (size pos len : ℕ) : List ℕ :=
  (List.range (min len (size - pos))).map (fun i => content (pos + i))

/-- Bytes written to the digest by the head-reading loop of hashLargeFile
(agent.go lines 340-363). -/
def headRead (content : ℕ → ℕ) (size : ℕ) : List ℕ :=
  readSegment content size 0 headSize

/-- Offset of middle sample number `i` (agent.go line 378):
middleStart + middleRange * i / numSamples. -/
def samplePos (size i : ℕ) : ℕ :=
  headSize + (size - tailSize - headSize) * i / numSamples

/-- The list of middle samples written to the digest by hashLargeFile
(agent.go lines 365-410): taken only when the budget is positive and the file
is larger than head plus tail; each sample reads budget/numSamples bytes. -/
def middleReads (content : ℕ → ℕ) (size : ℕ) : List (List ℕ) :=
  if 0 < middleSize size ∧ headSize + tailSize < size then
    (List.range numSamples).map
      (fun i => readSegment content size (samplePos size i) (middleSize size / numSamples))
  else []

/-- Bytes written to the digest by the tail-reading loop of hashLargeFile
(agent.go lines 412-442), guarded by size > headSize and tailSize > 0. -/
def tailRead (content : ℕ → ℕ) (size : ℕ) : List ℕ :=
  if headSize < size ∧ 0 < tailSize then
    readSegment content size (size - tailSize) tailSize
  else []

/-- The 8 size bytes appended by hashLargeFile (agent.go lines 447-449):
binary.LittleEndian.PutUint64 of the file size. -/
def sizeBytes (size : ℕ) : List ℕ :=
  (List.range 8).map (fun i => size / 256 ^ i % 256)

/-- The complete byte stream written into the sha256 digest by hashLargeFile:
head, then the middle samples, then the tail, then the 8 size bytes. -/
def hashLargeFileInput (content : ℕ → ℕ) (size : ℕ) : List ℕ :=
  headRead content size ++ (middleReads content size).flatten ++
    tailRead content size ++ sizeBytes size

/-- The byte stream written into the sha256 digest by hashFile (agent.go lines
454-466): the entire file content, via io.Copy. -/
def hashFileInput (content : ℕ → ℕ) (size : ℕ) : List ℕ :=
  (List.range size).map content

/-- The worker's size-based strategy selection (agent.go line 171):
true selects hashFile, false selects hashLargeFile. -/
def usesFullHash (size : ℕ) : Bool :=
  decide (size < 10 * 1024 * 1024)

/-- The lowercase hexadecimal alphabet used by fmt's %x verb. -/
def hexDigits : List Char :=
  "0123456789abcdef".data

/-- Byte-wise lowercase hex encoding, modelling fmt.Sprintf %x on a digest. -/
def toHex (bytes : List ℕ) : List Char :=
  bytes.flatMap (fun b => [hexDigits.getD (b / 16 % 16) '0', hexDigits.getD (b % 16) '0'])

/-- Offset `i` lies in the segment of `len` bytes read at `pos` from a file of
`size` bytes (the part of the read not truncated by end of file). -/
def inSegment (size pos len i : ℕ) : Prop :=
  pos ≤ i ∧ i < pos + min len (size - pos)

/-- Offset `i` of a file of `size` bytes is read by hashLargeFile: it lies in
the head segment, in one of the middle samples, or in the tail segment. -/
def isSampledOffset (size i : ℕ) : Prop :=
  inSegment size 0 headSize i ∨
  ((0 < middleSize size ∧ headSize + tailSize < size) ∧
    ∃ j, j < numSamples ∧ inSegment size (samplePos size j) (middleSize size / numSamples) i) ∨
  ((headSize < size ∧ 0 < tailSize) ∧ inSegment size (size - tailSize) tailSize i)

instance (size pos len i : ℕ) : Decidable (inSegment size pos len i) := by
  unfold inSegment; infer_instance

instance (size i : ℕ) : Decidable (isSampledOffset size i) := by
  unfold isSampledOffset; infer_instance

-- Pipeline data model (agent.go lines 23-30 and 153-243).

/-- A file record as built by a worker (agent.go lines 195-202).  MTime is
modelled as a natural-number timestamp. -/
structure FileRecord where
  machineID : String
  path : String
  filename : String
  size : ℕ
  mtime : ℕ
  hash : String
deriving Repr, DecidableEq

/-- The result of os.Stat on a path: directory flag, size and mtime. -/
structure StatInfo where
  isDir : Bool
  size : ℕ
  mtime : ℕ

/-- The filesystem environment a worker runs against: stat outcome per path
(none = stat error), the outcome of the selected hash function per path
(none = open/read error), and the filepath.Dir / filepath.Base / filepath.Abs
operations (absOf none = resolution failure, which the worker degrades to the
unresolved directory path). -/
structure WorkerEnv where
  stat : String → Option StatInfo
  hashResult : String → Option String
  dirOf : String → String
  baseOf : String → String
  absOf : String → Option String

/-- One worker iteration on a dequeued path (agent.go lines 157-208): stat
errors and directories are skipped, hash errors are skipped, otherwise exactly
one FileRecord is built, with the absolute-path fallback of lines 187-191. -/
def processPath (env : WorkerEnv) (machineID path : String) : Option FileRecord :=
  match env.stat path with
  | none => none
  | some info =>
    if info.isDir then none
    else
      match env.hashResult path with
      | none => none
      | some h =>
        let dirPath := env.dirOf path
        let absPath := (env.absOf dirPath).getD dirPath
        some { machineID := machineID, path := absPath, filename := env.baseOf path,
               size := info.size, mtime := info.mtime, hash := h }

/-- One step of the worker loop: every branch of the worker body increments the
processed counter exactly once; only the success branch emits a record. -/
def workerStep (env : WorkerEnv) (machineID : String)
    (acc : List FileRecord × ℕ) (path : String) : List FileRecord × ℕ :=
  match processPath env machineID path with
  | some r => (acc.1 ++ [r], acc.2 + 1)
  | none => (acc.1, acc.2 + 1)

/-- The worker pool draining the file queue (agent.go lines 153-211), flattened
to the sequence of dequeued paths: emitted records in emission order, together
with the final value of the processed counter. -/
def workerLoop (env : WorkerEnv) (machineID : String) (paths : List String) :
    List FileRecord × ℕ :=
  paths.foldl (workerStep env machineID) ([], 0)

-- Result collector / batcher (agent.go lines 224-243).

/-- The collector loop: append each arriving record to the current batch; when
the batch reaches the configured size, emit it and start a fresh one; when the
result queue closes, flush any non-empty remainder. -/
def collectLoop (B : ℕ) : List FileRecord → List FileRecord → List (List FileRecord)
  | batch, [] => if 0 < batch.length then [batch] else []
  | batch, r :: rest =>
    if B ≤ (batch ++ [r]).length then (batch ++ [r]) :: collectLoop B [] rest
    else collectLoop B (batch ++ [r]) rest

/-- The collector run over the whole stream of records, starting from an empty
batch. -/
def collectorRun (B : ℕ) (records : List FileRecord) : List (List FileRecord) :=
  collectLoop B [] records

/-- A concrete file record used to instantiate the pipeline theorems. -/
def sampleRecord : FileRecord :=
  { machineID := "m", path := "/data", filename := "a.txt",
    size := 1, mtime := 0, hash := "00" }

-- Batch sender (agent.go lines 213-222 and 468-499) and pipeline result.

/-- The outcome of one HTTP POST of a batch: a transport error, or a response
with the given status code. -/
inductive SendOutcome where
  | transportError : SendOutcome
  | status : ℕ → SendOutcome

/-- Whether sendBatch reports success: only a 204 No Content response counts
(agent.go line 493); a transport error or any other status is an error. -/
def sendBatchOK : SendOutcome → Bool
  | SendOutcome.transportError => false
  | SendOutcome.status c => decide (c = 204)

/-- The batch-processing goroutine (agent.go lines 215-222): each batch from
the batch queue is sent exactly once; a failed send is only logged — the batch
is neither retried nor requeued, and the loop moves on to the next batch. -/
def senderRun (respond : List FileRecord → SendOutcome) :
    List (List FileRecord) → List (List FileRecord × Bool)
  | [] => []
  | b :: rest => (b, sendBatchOK (respond b)) :: senderRun respond rest

/-- Run's return value (agent.go lines 279-281 and 297): the walk error if any,
wrapped; send outcomes never influence it. -/
def runReturn : Option String → Option String
  | some e => some ("walk error: " ++ e)
  | none => none

/-- The scan pipeline downstream composition: workers emit records, the
collector groups them into batches, the sender attempts each batch once, and
Run returns only the walker's error status. -/
def pipelineRun (env : WorkerEnv) (machineID : String) (paths : List String)
    (B : ℕ) (respond : List FileRecord → SendOutcome) (walkErr : Option String) :
    List (List FileRecord × Bool) × Option String :=
  (senderRun respond (collectorRun B (workerLoop env machineID paths).1),
   runReturn walkErr)

/-- A concrete worker environment in which every stat fails. -/
def emptyEnv : WorkerEnv :=
  { stat := fun _ => none, hashResult := fun _ => none,
    dirOf := fun s => s, baseOf := fun s => s, absOf := fun _ => none }

-- Agent construction and tuning options (agent.go lines 32-82) as wired by
-- cmd/agent/main.go, which applies WithWorkers / WithQueueSize only for
-- positive flag values.

/-- The agent configuration record (agent.go lines 32-39). -/
structure Agent where
  rootDir : String
  serverURL : String
  machineID : String
  batchSize : ℕ
  numWorkers : ℕ
  queueSize : ℕ

/-- strings.TrimRight(server, "/"): drop all trailing slash characters. -/
def trimTrailingSlashes (s : String) : String :=
  String.mk ((s.data.reverse.dropWhile (fun ch => ch == '/')).reverse)

/-- New (agent.go lines 42-66): worker count defaults to the CPU count raised
to a minimum of 4; queue size defaults to twice the batch size raised to a
minimum of 1000. -/
def New (numCPU : ℕ) (root server machineID : String) (batch : ℕ) : Agent :=
  let numWorkers := if numCPU < 4 then 4 else numCPU
  let queueSize := if batch * 2 < 1000 then 1000 else batch * 2
  { rootDir := root, serverURL := trimTrailingSlashes server, machineID := machineID,
    batchSize := batch, numWorkers := numWorkers, queueSize := queueSize }

/-- WithWorkers (agent.go lines 69-74): a positive value overrides the worker
count; zero or negative values leave it unchanged.  The Go int argument is
modelled as ℤ. -/
def WithWorkers (a : Agent) (workers : ℤ) : Agent :=
  if 0 < workers then { a with numWorkers := workers.toNat } else a

/-- WithQueueSize (agent.go lines 77-82): a positive value overrides the queue
size; zero or negative values leave it unchanged. -/
def WithQueueSize (a : Agent) (size : ℤ) : Agent :=
  if 0 < size then { a with queueSize := size.toNat } else a

-- Server-side ingestion handler (pkg/record/record.go lines 26-62).

/-- UploadFilesHandler on a request whose body decoded successfully (or not):
a decode failure responds 400; otherwise each record's upsert is attempted in
order with its error discarded (the `_ =` assignment on line 50), the database
state advancing only on successful upserts, and the handler always responds
204 No Content.  The database is an abstract state `δ`; `upsert d f = none`
models a failed upsert, which leaves the state unchanged. -/
def uploadFilesHandler {δ : Type} (upsert : δ → FileRecord → Option δ) (db : δ) :
    Option (List FileRecord) → ℕ × δ
  | none => (400, db)
  | some files => (204, files.foldl (fun d f => (upsert d f).getD d) db)

-- Helper lemmas about the hashing model.

lemma readSegment_congr {c1 c2 : ℕ → ℕ} {s p l : ℕ}
    (h : ∀ i, inSegment s p l i → c1 i = c2 i) :
    readSegment c1 s p l = readSegment c2 s p l := by
  unfold readSegment
  refine List.map_congr_left ?_
  intro i hi
  rw [List.mem_range] at hi
  exact h (p + i) ⟨Nat.le_add_right p i, by omega⟩

lemma inSegment_lt {s p l i : ℕ} (h : inSegment s p l i) : i < s := by
  rcases h with ⟨h1, h2⟩
  omega

lemma isSampledOffset_lt {s i : ℕ} (h : isSampledOffset s i) : i < s := by
  rcases h with h | ⟨_, _, _, h⟩ | ⟨_, h⟩ <;> exact inSegment_lt h

lemma hashLargeFileInput_congr {c1 c2 : ℕ → ℕ} {s : ℕ}
    (h : ∀ i, isSampledOffset s i → c1 i = c2 i) :
    hashLargeFileInput c1 s = hashLargeFileInput c2 s := by
  have hhead : headRead c1 s = headRead c2 s :=
    readSegment_congr (fun i hseg => h i (Or.inl hseg))
  have hmid : middleReads c1 s = middleReads c2 s := by
    unfold middleReads
    by_cases hc : 0 < middleSize s ∧ headSize + tailSize < s
    · rw [if_pos hc, if_pos hc]
      refine List.map_congr_left ?_
      intro j hj
      rw [List.mem_range] at hj
      exact readSegment_congr (fun i hseg => h i (Or.inr (Or.inl ⟨hc, j, hj, hseg⟩)))
    · rw [if_neg hc, if_neg hc]
  have htail : tailRead c1 s = tailRead c2 s := by
    unfold tailRead
    by_cases ht : headSize < s ∧ 0 < tailSize
    · rw [if_pos ht, if_pos ht]
      exact readSegment_congr (fun i hseg => h i (Or.inr (Or.inr ⟨ht, hseg⟩)))
    · rw [if_neg ht, if_neg ht]
  unfold hashLargeFileInput
  rw [hhead, hmid, htail]

lemma hashFileInput_congr {c1 c2 : ℕ → ℕ} {s : ℕ}
    (h : ∀ i, i < s → c1 i = c2 i) :
    hashFileInput c1 s = hashFileInput c2 s := by
  unfold hashFileInput
  refine List.map_congr_left ?_
  intro i hi
  exact h i (List.mem_range.mp hi)

-- Claim theorems.

/-- C1 (counterexample): the claim states that on the sampled-hash path the
middle budget is 0 whenever the size is at most 10 MiB + 2 MiB = 12 MiB.  At
size 11534336 (11 MiB) the file is routed to the sampled path, the size is at
most 12 MiB, yet the code computes a budget of size/10 = 1153433, not 0. -/
theorem c1_middle_budget_counterexample :
    10 * 1024 * 1024 ≤ 11534336 ∧ 11534336 ≤ 10 * 1024 * 1024 + 2 * 1024 * 1024 ∧
      middleSize 11534336 = 1153433 ∧ middleSize 11534336 ≠ 0 := by
  refine ⟨by norm_num, by norm_num, ?_, ?_⟩ <;> simp [middleSize]

/-- C1 (amended): the middle sampling budget is 0 for sizes at most 10 MiB
(on the sampled path this happens only at exactly 10 MiB), 10% of the size for
sizes in (10 MiB, 100 MiB], and a fixed 10 MiB for sizes above 100 MiB. -/
theorem c1_middle_budget (S : ℕ) :
    (S ≤ 10 * 1024 * 1024 → middleSize S = 0) ∧
    (10 * 1024 * 1024 < S → S ≤ 100 * 1024 * 1024 → middleSize S = S / 10) ∧
    (100 * 1024 * 1024 < S → middleSize S = 10 * 1024 * 1024) := by
  unfold middleSize
  refine ⟨fun h => ?_, fun h1 h2 => ?_, fun h => ?_⟩
  · rw [if_neg (by omega), if_neg (by omega)]
  · rw [if_neg (by omega), if_pos (by omega)]
  · rw [if_pos (by omega)]

/-- C1 witness: the amended bucket formula evaluated at 10 MiB, 50 MiB and
200 MiB. -/
theorem c1_middle_budget_witness :
    middleSize 10485760 = 0 ∧ middleSize 52428800 = 52428800 / 10 ∧
      middleSize 209715200 = 10 * 1024 * 1024 :=
  ⟨(c1_middle_budget 10485760).1 (by norm_num),
   (c1_middle_budget 52428800).2.1 (by norm_num) (by norm_num),
   (c1_middle_budget 209715200).2.2 (by norm_num)⟩

/-- C3: files strictly below 10 MiB select the full-hash path, whose digest
input is 100% of the file's bytes in order; files of at least 10 MiB select the
sampled path; and a hex-encoded digest consists only of lowercase hexadecimal
characters. -/
theorem c3_path_selection (c : ℕ → ℕ) (S : ℕ) (digest : List ℕ) :
    (S < 10 * 1024 * 1024 → usesFullHash S = true) ∧
    (10 * 1024 * 1024 ≤ S → usesFullHash S = false) ∧
    (hashFileInput c S).length = S ∧
    (∀ i, i < S → (hashFileInput c S)[i]? = some (c i)) ∧
    (∀ ch ∈ toHex digest, ch ∈ hexDigits) := by
  refine ⟨fun h => ?_, fun h => ?_, ?_, fun i hi => ?_, fun ch hch => ?_⟩
  · simp [usesFullHash, h]
  · simp [usesFullHash]; omega
  · simp [hashFileInput]
  · simp [hashFileInput, List.getElem?_map, List.getElem?_range, hi]
  · rw [toHex, List.mem_flatMap] at hch
    obtain ⟨b, _, hb⟩ := hch
    have hmem : ∀ n : ℕ, hexDigits.getD (n % 16) '0' ∈ hexDigits := by
      intro n
      have : n % 16 < hexDigits.length := by
        have h16 : hexDigits.length = 16 := rfl
        omega
      rw [List.getD_eq_getElem hexDigits '0' this]
      exact List.getElem_mem this
    rcases List.mem_pair.mp hb with hb | hb
    · rw [hb]; exact hmem (b / 16)
    · rw [hb]; exact hmem b

/-- C3 witness: a 1 KiB file selects the full path and its digest input has one
entry per byte; a 10 MiB file selects the sampled path. -/
theorem c3_path_selection_witness :
    usesFullHash 1024 = true ∧ usesFullHash (10 * 1024 * 1024) = false ∧
      (hashFileInput (fun i => i) 1024).length = 1024 :=
  ⟨(c3_path_selection (fun i => i) 1024 []).1 (by norm_num),
   (c3_path_selection (fun i => i) (10 * 1024 * 1024) []).2.1 (by norm_num),
   (c3_path_selection (fun i => i) 1024 []).2.2.1⟩

-- Arithmetic facts for the sampled path on files above 100 MiB.

lemma samplePos_le {S i : ℕ} (hS : 100 * 1024 * 1024 < S) (hi : i < 10) :
    samplePos S i + 1024 * 1024 ≤ S := by
  unfold samplePos headSize tailSize numSamples
  have hmul : (S - 1024 * 1024 - 1024 * 1024) * i ≤ (S - 1024 * 1024 - 1024 * 1024) * 10 :=
    Nat.mul_le_mul_left _ (by omega)
  have hdiv : (S - 1024 * 1024 - 1024 * 1024) * i / 10 ≤ S - 1024 * 1024 - 1024 * 1024 := by
    calc (S - 1024 * 1024 - 1024 * 1024) * i / 10
        ≤ (S - 1024 * 1024 - 1024 * 1024) * 10 / 10 := Nat.div_le_div_right hmul
      _ = S - 1024 * 1024 - 1024 * 1024 := Nat.mul_div_cancel _ (by norm_num)
  omega

lemma readSegment_length_of_le {c : ℕ → ℕ} {S p l : ℕ} (h : p + l ≤ S) :
    (readSegment c S p l).length = l := by
  unfold readSegment
  rw [List.length_map, List.length_range]
  omega

/-- C2: for a file of size S strictly above 100 MiB, the sampled hash digests
exactly the first 1 MiB of the file, ten middle samples of exactly 1 MiB each
(10 MiB in total), the last 1 MiB of the file, and 8 size bytes, so the digest
input is exactly 12 MiB + 8 bytes long, independent of S. -/
theorem c2_sampled_shape (c : ℕ → ℕ) (S : ℕ) (hS : 100 * 1024 * 1024 < S) :
    headRead c S = (List.range (1024 * 1024)).map c ∧
    (middleReads c S).length = 10 ∧
    (∀ l ∈ middleReads c S, l.length = 1024 * 1024) ∧
    tailRead c S = (List.range (1024 * 1024)).map (fun i => c (S - 1024 * 1024 + i)) ∧
    (sizeBytes S).length = 8 ∧
    (hashLargeFileInput c S).length = 12 * 1024 * 1024 + 8 := by
  have hms : middleSize S = 10 * 1024 * 1024 := by unfold middleSize; rw [if_pos hS]
  have hcond : 0 < middleSize S ∧ headSize + tailSize < S := by
    unfold headSize tailSize; omega
  have htcond : headSize < S ∧ 0 < tailSize := by unfold headSize tailSize; omega
  have hhead : headRead c S = (List.range (1024 * 1024)).map c := by
    unfold headRead readSegment headSize
    rw [Nat.sub_zero, min_eq_left (by omega)]
    simp
  have hmid : (middleReads c S).length = 10 := by
    unfold middleReads
    rw [if_pos hcond, List.length_map, List.length_range]
    rfl
  have hsample : ∀ l ∈ middleReads c S, l.length = 1024 * 1024 := by
    intro l hl
    unfold middleReads at hl
    rw [if_pos hcond, List.mem_map] at hl
    obtain ⟨i, hi, rfl⟩ := hl
    rw [List.mem_range] at hi
    have hi10 : i < 10 := by simpa [numSamples] using hi
    have hsz : middleSize S / numSamples = 1024 * 1024 := by
      rw [hms]; unfold numSamples; norm_num
    rw [hsz]
    exact readSegment_length_of_le (samplePos_le hS hi10)
  have htail : tailRead c S = (List.range (1024 * 1024)).map
      (fun i => c (S - 1024 * 1024 + i)) := by
    unfold tailRead readSegment tailSize headSize
    rw [if_pos (by unfold headSize tailSize at htcond; exact htcond)]
    rw [Nat.sub_sub_self (by omega), min_self]
  have hsz8 : (sizeBytes S).length = 8 := by
    unfold sizeBytes
    rw [List.length_map, List.length_range]
  have htot : (hashLargeFileInput c S).length = 12 * 1024 * 1024 + 8 := by
    unfold hashLargeFileInput
    rw [List.length_append, List.length_append, List.length_append]
    have h1 : (headRead c S).length = 1024 * 1024 := by
      rw [hhead, List.length_map, List.length_range]
    have h2 : (middleReads c S).flatten.length = 10 * 1024 * 1024 := by
      rw [List.length_flatten]
      have : (middleReads c S).map List.length = List.replicate 10 (1024 * 1024) := by
        refine List.eq_replicate_iff.mpr ⟨by rw [List.length_map, hmid], ?_⟩
        intro b hb
        rw [List.mem_map] at hb
        obtain ⟨l, hl, rfl⟩ := hb
        exact hsample l hl
      rw [this, List.sum_replicate, smul_eq_mul]
    have h3 : (tailRead c S).length = 1024 * 1024 := by
      rw [htail, List.length_map, List.length_range]
    rw [h1, h2, h3, hsz8]
  exact ⟨hhead, hmid, hsample, htail, hsz8, htot⟩

/-- C2 witness: at size 100 MiB + 1 the sampled digest input is exactly
12 MiB + 8 bytes, with ten 1 MiB middle samples. -/
theorem c2_sampled_shape_witness :
    (middleReads (fun _ => 0) 104857601).length = 10 ∧
      (hashLargeFileInput (fun _ => 0) 104857601).length = 12 * 1024 * 1024 + 8 :=
  ⟨(c2_sampled_shape (fun _ => 0) 104857601 (by norm_num)).2.1,
   (c2_sampled_shape (fun _ => 0) 104857601 (by norm_num)).2.2.2.2.2⟩

-- The size bytes are the last 8 entries of the sampled digest input, and they
-- determine the size for any size below 2^64 (the range of the uint64 cast).

lemma take_length_append {α : Type} (l m : List α) : (l ++ m).take l.length = l := by
  induction l with
  | nil => rfl
  | cons a t ih => simp [ih]

lemma sizeBytes_expand (s : ℕ) :
    sizeBytes s = [s % 256, s / 256 % 256, s / 65536 % 256, s / 16777216 % 256,
      s / 4294967296 % 256, s / 1099511627776 % 256, s / 281474976710656 % 256,
      s / 72057594037927936 % 256] := by
  simp [sizeBytes, List.range_succ]

lemma sizeBytes_inj {s1 s2 : ℕ} (h1 : s1 < 2 ^ 64) (h2 : s2 < 2 ^ 64)
    (h : sizeBytes s1 = sizeBytes s2) : s1 = s2 := by
  rw [sizeBytes_expand, sizeBytes_expand] at h
  simp only [List.cons.injEq, and_true] at h
  norm_num at h1 h2
  omega

lemma hashLargeFileInput_size_suffix (c : ℕ → ℕ) (s : ℕ) :
    (hashLargeFileInput c s).reverse.take 8 = (sizeBytes s).reverse := by
  have h8 : (sizeBytes s).reverse.length = 8 := by
    rw [List.length_reverse]
    unfold sizeBytes
    rw [List.length_map, List.length_range]
  unfold hashLargeFileInput
  rw [List.reverse_append]
  have : (8 : ℕ) = (sizeBytes s).reverse.length := h8.symm
  rw [this, take_length_append]

/-- C4: two files of equal size whose bytes agree at every offset read by the
sampling scheme produce the same sampled digest input (hence the same hash);
two files of different sizes (both below 2^64, the range of the uint64 size
cast) always produce different sampled digest inputs, because the exact size is
appended as 8 little-endian bytes. -/
theorem c4_size_discrimination (c1 c2 : ℕ → ℕ) (s1 s2 : ℕ)
    (h1 : s1 < 2 ^ 64) (h2 : s2 < 2 ^ 64) :
    (s1 = s2 → (∀ i, isSampledOffset s1 i → c1 i = c2 i) →
      hashLargeFileInput c1 s1 = hashLargeFileInput c2 s2) ∧
    (s1 ≠ s2 → hashLargeFileInput c1 s1 ≠ hashLargeFileInput c2 s2) := by
  constructor
  · rintro rfl hagree
    exact hashLargeFileInput_congr hagree
  · intro hne heq
    apply hne
    apply sizeBytes_inj h1 h2
    have h := congrArg (fun l => l.reverse.take 8) heq
    simp only [hashLargeFileInput_size_suffix] at h
    exact List.reverse_injective h

/-- C4 witness: two files with identical content functions but sizes 5 and 6
have different sampled digest inputs; two identical files of size 5 have the
same input. -/
theorem c4_size_discrimination_witness :
    hashLargeFileInput (fun _ => 3) 5 = hashLargeFileInput (fun _ => 3) 5 ∧
      hashLargeFileInput (fun _ => 3) 5 ≠ hashLargeFileInput (fun _ => 3) 6 :=
  ⟨(c4_size_discrimination (fun _ => 3) (fun _ => 3) 5 5 (by norm_num) (by norm_num)).1
      rfl (fun _ _ => rfl),
   (c4_size_discrimination (fun _ => 3) (fun _ => 3) 5 6 (by norm_num) (by norm_num)).2
      (by norm_num)⟩

/-- C8: hashing is deterministic — the digest input is a function of the file
size and byte content alone.  Two contents agreeing on every byte below the
size give the same full-hash input and the same sampled-hash input; moreover
the sampled input depends only on the bytes at the sampled offsets. -/
theorem c8_deterministic_hash (c1 c2 : ℕ → ℕ) (S : ℕ) :
    ((∀ i, i < S → c1 i = c2 i) → hashFileInput c1 S = hashFileInput c2 S) ∧
    ((∀ i, i < S → c1 i = c2 i) → hashLargeFileInput c1 S = hashLargeFileInput c2 S) ∧
    ((∀ i, isSampledOffset S i → c1 i = c2 i) →
      hashLargeFileInput c1 S = hashLargeFileInput c2 S) := by
  refine ⟨fun h => hashFileInput_congr h, fun h => ?_, fun h => hashLargeFileInput_congr h⟩
  exact hashLargeFileInput_congr (fun i hs => h i (isSampledOffset_lt hs))

/-- C8 witness: two syntactically different content functions that agree on all
bytes below the size 4 yield identical full and sampled digest inputs. -/
theorem c8_deterministic_hash_witness :
    hashFileInput (fun _ => 0) 4 = hashFileInput (fun i => if i < 4 then 0 else 9) 4 ∧
      hashLargeFileInput (fun _ => 0) 4 =
        hashLargeFileInput (fun i => if i < 4 then 0 else 9) 4 :=
  ⟨(c8_deterministic_hash (fun _ => 0) (fun i => if i < 4 then 0 else 9) 4).1
      (fun i hi => by simp [hi]),
   (c8_deterministic_hash (fun _ => 0) (fun i => if i < 4 then 0 else 9) 4).2.1
      (fun i hi => by simp [hi])⟩

lemma workerLoop_go (env : WorkerEnv) (machineID : String) (paths : List String) :
    ∀ (recs : List FileRecord) (n : ℕ),
      paths.foldl (workerStep env machineID) (recs, n) =
        (recs ++ paths.filterMap (processPath env machineID), n + paths.length) := by
  induction paths with
  | nil => intro recs n; simp
  | cons p rest ih =>
    intro recs n
    rw [List.foldl_cons, List.filterMap_cons]
    cases hp : processPath env machineID p with
    | none =>
      have hstep : workerStep env machineID (recs, n) p = (recs, n + 1) := by
        unfold workerStep; rw [hp]
      rw [hstep, ih recs (n + 1)]
      simp only [Prod.mk.injEq, List.length_cons]
      exact ⟨by simp, by omega⟩
    | some r =>
      have hstep : workerStep env machineID (recs, n) p = (recs ++ [r], n + 1) := by
        unfold workerStep; rw [hp]
      rw [hstep, ih (recs ++ [r]) (n + 1)]
      simp only [Prod.mk.injEq, List.length_cons]
      exact ⟨by simp, by omega⟩

/-- C6: over any sequence of dequeued paths, the processed counter ends exactly
at the number of paths (each path increments it exactly once, whatever its
outcome), and the emitted records are exactly one FileRecord per path whose
stat and hash both succeed — skipped paths emit nothing. -/
theorem c6_one_outcome_per_path (env : WorkerEnv) (machineID : String)
    (paths : List String) :
    (workerLoop env machineID paths).2 = paths.length ∧
    (workerLoop env machineID paths).1 = paths.filterMap (processPath env machineID) := by
  unfold workerLoop
  rw [workerLoop_go env machineID paths [] 0]
  simp

lemma collectLoop_flatten (B : ℕ) (hB : 0 < B) :
    ∀ (l batch : List FileRecord), batch.length < B →
      (collectLoop B batch l).flatten = batch ++ l := by
  intro l
  induction l with
  | nil =>
    intro batch hb
    simp only [collectLoop]
    by_cases h0 : 0 < batch.length
    · rw [if_pos h0]; simp
    · rw [if_neg h0]
      have hnil : batch = [] := List.eq_nil_of_length_eq_zero (by omega)
      simp [hnil]
  | cons r rest ih =>
    intro batch hb
    simp only [collectLoop]
    by_cases hemit : B ≤ (batch ++ [r]).length
    · rw [if_pos hemit, List.flatten_cons, ih [] (by simpa using hB)]
      simp
    · rw [if_neg hemit]
      rw [ih (batch ++ [r]) (by simp at hemit ⊢; omega)]
      simp


lemma collectLoop_map_length (B : ℕ) (hB : 0 < B) :
    ∀ (l batch : List FileRecord), batch.length < B → 0 < batch.length + l.length →
      (collectLoop B batch l).map List.length =
        List.replicate ((batch.length + l.length + B - 1) / B - 1) B ++
          [if (batch.length + l.length) % B = 0 then B
           else (batch.length + l.length) % B] := by
  intro l
  induction l with
  | nil =>
    intro batch hb hpos
    simp only [List.length_nil, Nat.add_zero] at hpos ⊢
    simp only [collectLoop]
    rw [if_pos hpos]
    have hceil : (batch.length + B - 1) / B = 1 := by
      have he : batch.length + B - 1 = (batch.length - 1) + B := by omega
      rw [he, Nat.add_div_right _ hB, Nat.div_eq_of_lt (by omega)]
    have hmod : batch.length % B = batch.length := Nat.mod_eq_of_lt hb
    rw [hceil, hmod, if_neg (by omega)]
    simp
  | cons r rest ih =>
    intro batch hb hpos
    simp only [collectLoop, List.length_cons]
    by_cases hemit : B ≤ (batch ++ [r]).length
    · rw [if_pos hemit]
      have hfull : batch.length + 1 = B := by simp at hemit; omega
      have hN : batch.length + (rest.length + 1) = B + rest.length := by omega
      rw [List.map_cons, hN]
      have hhead : (batch ++ [r]).length = B := by simp; omega
      rw [hhead]
      have hdiv : B + rest.length + B - 1 = (rest.length + B - 1) + B := by omega
      rw [hdiv, Nat.add_div_right _ hB, Nat.add_sub_cancel]
      have hmod : (B + rest.length) % B = rest.length % B := Nat.add_mod_left B rest.length
      rw [hmod]
      cases rest with
      | nil =>
        have h1 : collectLoop B ([] : List FileRecord) [] = [] := by
          simp only [collectLoop]
          rw [if_neg (by simp)]
        rw [h1]
        simp only [List.length_nil, List.map_nil]
        rw [Nat.div_eq_of_lt (by omega), Nat.zero_mod, if_pos rfl]
        simp
      | cons r2 rest2 =>
        rw [ih [] (by simpa using hB) (by simp)]
        simp only [List.length_nil, List.length_cons, Nat.zero_add]
        have hK : 1 ≤ (rest2.length + 1 + B - 1) / B :=
          (Nat.one_le_div_iff hB).mpr (by omega)
        rw [← List.cons_append, ← List.replicate_succ, Nat.sub_add_cancel hK]
    · rw [if_neg hemit]
      have hlt : (batch ++ [r]).length < B := by omega
      have hN : batch.length + (rest.length + 1) = (batch ++ [r]).length + rest.length := by
        simp; omega
      rw [hN]
      exact ih (batch ++ [r]) hlt (by simp)

/-- C5: for N emitted records (N > 0) and batch size B > 0, the collector
produces exactly ceil(N/B) batches; the per-batch sizes are B for every batch
except the last, whose size is N mod B (or B when B divides N); and the
concatenation of all batches is exactly the record stream — no record is
dropped, the final partial batch being flushed on queue closure. -/
theorem c5_collector_batches (records : List FileRecord) (B : ℕ)
    (hB : 0 < B) (hN : 0 < records.length) :
    (collectorRun B records).length = (records.length + B - 1) / B ∧
    (collectorRun B records).map List.length =
      List.replicate ((records.length + B - 1) / B - 1) B ++
        [if records.length % B = 0 then B else records.length % B] ∧
    (collectorRun B records).flatten = records := by
  have hmap := collectLoop_map_length B hB records [] (by simpa using hB) (by simpa using hN)
  have hflat := collectLoop_flatten B hB records [] (by simpa using hB)
  simp only [List.length_nil, Nat.zero_add, List.nil_append] at hmap hflat
  refine ⟨?_, hmap, hflat⟩
  have hlen := congrArg List.length hmap
  simp only [List.length_map, List.length_append, List.length_replicate,
    List.length_cons, List.length_nil] at hlen
  have hK : 1 ≤ (records.length + B - 1) / B := (Nat.one_le_div_iff hB).mpr (by omega)
  unfold collectorRun
  omega

/-- C5 witness: three records with batch size 2 give two batches, sized 2 and
1, whose concatenation is the stream. -/
theorem c5_collector_batches_witness :
    (collectorRun 2 [sampleRecord, sampleRecord, sampleRecord]).length = (3 + 2 - 1) / 2 ∧
      (collectorRun 2 [sampleRecord, sampleRecord, sampleRecord]).map List.length =
        List.replicate ((3 + 2 - 1) / 2 - 1) 2 ++ [if 3 % 2 = 0 then 2 else 3 % 2] ∧
      (collectorRun 2 [sampleRecord, sampleRecord, sampleRecord]).flatten =
        [sampleRecord, sampleRecord, sampleRecord] :=
  c5_collector_batches [sampleRecord, sampleRecord, sampleRecord] 2
    (by norm_num) (by norm_num)

lemma senderRun_fst (respond : List FileRecord → SendOutcome) :
    ∀ batches : List (List FileRecord),
      (senderRun respond batches).map Prod.fst = batches := by
  intro batches
  induction batches with
  | nil => rfl
  | cons b rest ih => simp [senderRun, ih]

/-- C7: a batch send succeeds exactly when the response status is 204; a
transport error or any other status is a failure; every batch produced by the
collector is attempted exactly once, in order, whatever the outcomes (no retry,
no requeue); and when the walker reported no error the pipeline's Run returns
success regardless of send outcomes. -/
theorem c7_best_effort_delivery (env : WorkerEnv) (machineID : String)
    (paths : List String) (B : ℕ) (respond : List FileRecord → SendOutcome)
    (walkErr : Option String) :
    (∀ c, sendBatchOK (SendOutcome.status c) = true ↔ c = 204) ∧
    sendBatchOK SendOutcome.transportError = false ∧
    (pipelineRun env machineID paths B respond walkErr).1.map Prod.fst =
      collectorRun B (workerLoop env machineID paths).1 ∧
    (walkErr = none →
      (pipelineRun env machineID paths B respond walkErr).2 = none) := by
  refine ⟨fun c => ?_, rfl, ?_, fun hw => ?_⟩
  · simp [sendBatchOK]
  · exact senderRun_fst respond (collectorRun B (workerLoop env machineID paths).1)
  · simp [pipelineRun, hw, runReturn]

/-- C7 witness: status 204 is a success, status 500 and transport errors are
failures, and with no walk error the pipeline returns success even though every
send fails. -/
theorem c7_best_effort_delivery_witness :
    sendBatchOK (SendOutcome.status 204) = true ∧
      sendBatchOK SendOutcome.transportError = false ∧
      (pipelineRun emptyEnv "m" [] 2 (fun _ => SendOutcome.transportError) none).2 = none :=
  ⟨((c7_best_effort_delivery emptyEnv "m" [] 2 (fun _ => SendOutcome.transportError)
      none).1 204).mpr rfl,
   (c7_best_effort_delivery emptyEnv "m" [] 2 (fun _ => SendOutcome.transportError)
      none).2.1,
   (c7_best_effort_delivery emptyEnv "m" [] 2 (fun _ => SendOutcome.transportError)
      none).2.2.2 rfl⟩

/-- C9: New derives the worker count as max(CPU count, 4) and the queue size as
max(2 x batch size, 1000); a positive configured value passed through
WithWorkers / WithQueueSize overrides the derived default, while a
non-positive one (the 0 = auto convention) keeps it. -/
theorem c9_config_defaults (numCPU : ℕ) (root server machineID : String)
    (batch : ℕ) (w q : ℤ) :
    (New numCPU root server machineID batch).numWorkers = max numCPU 4 ∧
    (New numCPU root server machineID batch).queueSize = max (2 * batch) 1000 ∧
    (0 < w → (WithWorkers (New numCPU root server machineID batch) w).numWorkers
        = w.toNat) ∧
    (w ≤ 0 → (WithWorkers (New numCPU root server machineID batch) w).numWorkers
        = max numCPU 4) ∧
    (0 < q → (WithQueueSize (New numCPU root server machineID batch) q).queueSize
        = q.toNat) ∧
    (q ≤ 0 → (WithQueueSize (New numCPU root server machineID batch) q).queueSize
        = max (2 * batch) 1000) := by
  have hw : (New numCPU root server machineID batch).numWorkers = max numCPU 4 := by
    unfold New
    by_cases h : numCPU < 4
    · simp only [if_pos h]
      omega
    · simp only [if_neg h]
      omega
  have hq : (New numCPU root server machineID batch).queueSize = max (2 * batch) 1000 := by
    unfold New
    by_cases h : batch * 2 < 1000
    · simp only [if_pos h]
      omega
    · simp only [if_neg h]
      omega
  refine ⟨hw, hq, fun h => ?_, fun h => ?_, fun h => ?_, fun h => ?_⟩
  · unfold WithWorkers
    rw [if_pos h]
  · unfold WithWorkers
    rw [if_neg (by omega)]
    exact hw
  · unfold WithQueueSize
    rw [if_pos h]
  · unfold WithQueueSize
    rw [if_neg (by omega)]
    exact hq

/-- C9 witness: with 8 CPUs and batch 100, New derives 8 workers and queue
1000; WithWorkers 16 overrides the worker count; WithQueueSize 0 keeps the
derived queue size. -/
theorem c9_config_defaults_witness :
    (New 8 "/r" "http://s" "m" 100).numWorkers = max 8 4 ∧
      (New 8 "/r" "http://s" "m" 100).queueSize = max (2 * 100) 1000 ∧
      (WithWorkers (New 8 "/r" "http://s" "m" 100) 16).numWorkers = (16 : ℤ).toNat ∧
      (WithQueueSize (New 8 "/r" "http://s" "m" 100) 0).queueSize = max (2 * 100) 1000 :=
  ⟨(c9_config_defaults 8 "/r" "http://s" "m" 100 16 0).1,
   (c9_config_defaults 8 "/r" "http://s" "m" 100 16 0).2.1,
   (c9_config_defaults 8 "/r" "http://s" "m" 100 16 0).2.2.1 (by norm_num),
   (c9_config_defaults 8 "/r" "http://s" "m" 100 16 0).2.2.2.2.2 (by norm_num)⟩

lemma uploadFilesHandler_all_fail {δ : Type} (upsert : δ → FileRecord → Option δ)
    (hfail : ∀ d f, upsert d f = none) :
    ∀ (files : List FileRecord) (db : δ),
      files.foldl (fun d f => (upsert d f).getD d) db = db := by
  intro files
  induction files with
  | nil => intro db; rfl
  | cons f rest ih =>
    intro db
    rw [List.foldl_cons, hfail db f]
    exact ih db

/-- C10: for every request body that decodes to a list of records, the handler
responds 204 No Content regardless of upsert outcomes; in particular when every
upsert fails the response is still 204 and the database state is unchanged, so
a 204 does not imply the records were persisted. -/
theorem c10_ingest_silent_204 {δ : Type} (upsert : δ → FileRecord → Option δ)
    (db : δ) (files : List FileRecord) :
    (uploadFilesHandler upsert db (some files)).1 = 204 ∧
    ((∀ d f, upsert d f = none) →
      uploadFilesHandler upsert db (some files) = (204, db)) := by
  refine ⟨rfl, fun hfail => ?_⟩
  show (204, files.foldl (fun d f => (upsert d f).getD d) db) = (204, db)
  rw [uploadFilesHandler_all_fail upsert hfail files db]

/-- C10 witness: an always-failing upsert on a one-record body still yields
status 204 with the database untouched. -/
theorem c10_ingest_silent_204_witness :
    (uploadFilesHandler (fun (_ : ℕ) (_ : FileRecord) => none) 7 (some [sampleRecord])).1
        = 204 ∧
      uploadFilesHandler (fun (_ : ℕ) (_ : FileRecord) => none) 7 (some [sampleRecord])
        = (204, 7) :=
  ⟨(c10_ingest_silent_204 (fun _ _ => none) 7 [sampleRecord]).1,
   (c10_ingest_silent_204 (fun _ _ => none) 7 [sampleRecord]).2 (fun _ _ => rfl)⟩

